import Mathlib

/-!
Verification development for the scot server/client framework.

The definitions below shallowly embed the Rust sources:
  - `src/scot/src/server/recipients.rs` (recipient selectors),
  - `src/scot/src/server/mod.rs` (the acceptor loop `start_with_listener`,
    the per-connection setup `__next_client`, and the spawned session loop),
  - `src/scot/src/server/state.rs` (the `State` trait and the mutex adapters),
  - `src/scot/src/types.rs` (message channel bundle),
together with models of the external collaborators the core is built on:
the tokio broadcast channel, the `LengthDelimitedCodec` framing and the
`serde_json` value codec.
-/

namespace Scot

/-! ## JSON values (model of `serde_json::Value`)

`serde_json::Value` is the erased payload type carried by the broadcast bus
and the outbound framed sink.  Numbers are modelled as integers; IEEE
floating point numbers are outside the embedding. -/

mutual

/-- Model of `serde_json::Value` with integer numbers.  The `Vec<Value>`
inside `Value::Array` and the key/value map inside `Value::Object` are
represented by the mutually defined list types `JsonList` and
`JsonMembers`. -/
inductive Json where
  | null
  | bool (b : Bool)
  | num (n : Int)
  | str (s : String)
  | arr (elems : JsonList)
  | obj (members : JsonMembers)

/-- A list of JSON array elements (`Vec<Value>`). -/
inductive JsonList where
  | nil
  | cons (head : Json) (tail : JsonList)

/-- A list of JSON object members (`Map<String, Value>`, in entry
order). -/
inductive JsonMembers where
  | nil
  | cons (key : String) (value : Json) (tail : JsonMembers)

end

/-! ## Recipient selectors (`src/scot/src/server/recipients.rs`) -/

/-- The `Recipients<T>` enum from `recipients.rs`. -/
inductive Recipients (T : Type) where
  /-- `Recipients::SingleRecipient { recipient }` -/
  | singleRecipient (recipient : T)
  /-- `Recipients::MultipleRecipients { recipients }` -/
  | multipleRecipients (recipients : List T)
  /-- `Recipients::Everyone` -/
  | everyone

/-- The evaluation of a selector against a session's own identifier.  This is
the `should_send` computation from the session loop in `__next_client`
(`server/mod.rs`, the `match recipients` expression): `Everyone` is always
true, `SingleRecipient` compares the stored recipient with the session id,
`MultipleRecipients` tests list membership via `Vec::contains`. -/
def Recipients.matches {T : Type} [DecidableEq T] : Recipients T → T → Bool
  | .everyone, _ => true
  | .singleRecipient recipient, id => recipient == id
  | .multipleRecipients recipients, id => recipients.contains id

/-- `Recipients::everyone_but` from `recipients.rs`:
`clients.into_iter().filter(|x| x != client_id).collect()` wrapped in
`MultipleRecipients`. -/
def Recipients.everyone_but {T : Type} [DecidableEq T] (client_id : T)
    (clients : List T) : Recipients T :=
  .multipleRecipients (clients.filter (fun x => !(x == client_id)))

/-- The recipient list of a `MultipleRecipients` value (empty for the other
constructors); used to state set-level properties of `everyone_but`. -/
def Recipients.recipientList {T : Type} : Recipients T → List T
  | .multipleRecipients recipients => recipients
  | _ => []

/-- Whether a selector is a `MultipleRecipients` value. -/
def Recipients.isMultiple {T : Type} : Recipients T → Bool
  | .multipleRecipients _ => true
  | _ => false

/-! ## Message channels and session hooks (`types.rs`, `server/mod.rs`)

`ServerMessageChannels` bundles the per-client outbound framed sink
(`response_sender`) and the shared broadcast publish handle
(`broadcast_sender`).  In the embedding a channel is represented by the
list of messages that have been pushed into it, oldest first. -/

/-- Effect-level model of `ServerMessageChannels<T>` from `types.rs`. -/
structure Channels (T : Type) where
  /-- Values passed to `response_sender.send`, in order. -/
  responses : List Json
  /-- Routed messages passed to `broadcast_sender.send`, in order. -/
  broadcasts : List (Json × Recipients T)

/-- The error type returned by `tokio::sync::broadcast::Receiver::recv`. -/
inductive RecvError where
  /-- `RecvError::Lagged(n)`: the receiver skipped `n` messages. -/
  | lagged (missed : Nat)
  /-- `RecvError::Closed`: all senders have been dropped. -/
  | closed

/-- The user-supplied and user-overridable handler functions a session
dispatches to: `MessageHandler::handle_client_message`,
`MessageHandler::handle_bad_message`, `Server::handle_broadcast_send_err`
and `Server::handle_broadcast_recv_err`.  A Rust `&mut` parameter becomes an
explicit component of the result. -/
structure ServerHooks (M T S E : Type) where
  /-- `handle_client_message(msg, id, channels, state)`. -/
  handleClientMessage : M → T → Channels T → S → Channels T × S
  /-- `handle_bad_message(id, channels, state)`. -/
  handleBadMessage : T → Channels T → S → Channels T × S
  /-- `handle_broadcast_send_err(err, state)`. -/
  handleBroadcastSendErr : E → S → S
  /-- `handle_broadcast_recv_err(err, state)`. -/
  handleBroadcastRecvErr : RecvError → S → S

/-- Default `MessageHandler::handle_bad_message` (`server/mod.rs`): the body
is empty, so channels and state are returned unchanged. -/
def defaultHandleBadMessage {T S : Type} (_id : T) (channels : Channels T)
    (state : S) : Channels T × S :=
  (channels, state)

/-- Default `Server::handle_broadcast_send_err` (`server/mod.rs`): empty
body. -/
def defaultHandleBroadcastSendErr {S E : Type} (_err : E) (state : S) : S :=
  state

/-- Default `Server::handle_broadcast_recv_err` (`server/mod.rs`): empty
body. -/
def defaultHandleBroadcastRecvErr {S : Type} (_err : RecvError) (state : S) :
    S :=
  state

/-! ## The session event loop (`__next_client`, spawned task)

The spawned task is an unbounded `loop` around a `tokio::select!` with two
arms: a broadcast-bus receive and a client-stream receive.  One iteration of
the loop is embedded as a step function on the session's mutable data; the
event that `select!` resolved to is an input of the step.  The source loop
body contains no `break` or `return`, which is reflected by the `status`
field never leaving `SessionStatus.active`. -/

/-- Whether the session task is still looping. -/
inductive SessionStatus where
  | active
  | closed
deriving DecidableEq

/-- The mutable data owned by one spawned session task: the channel bundle,
the per-session state value, and whether the task is still looping. -/
structure SessionState (T S : Type) where
  channels : Channels T
  state : S
  status : SessionStatus

/-- One resolution of the session's `tokio::select!`: which arm fired and
with which value.  `busMsg` additionally records the outcome the environment
gives to the `response_sender.send` call, should one be made. -/
inductive SessionEvent (M T E : Type) where
  /-- Bus arm, `Ok((value, recipients))`; `sendErr` is the outcome of a
  forwarding attempt (`none` = send succeeded). -/
  | busMsg (value : Json) (recipients : Recipients T) (sendErr : Option E)
  /-- Bus arm, `Err(e)` (lagged or closed). -/
  | busRecvErr (e : RecvError)
  /-- Client arm, `Ok(Some(msg))`: a decoded message. -/
  | clientMsg (m : M)
  /-- Client arm, `Ok(None)`: end of stream. -/
  | clientEOF
  /-- Client arm, `Err(e)`: a decode failure. -/
  | clientDecodeErr

/-- One iteration of the spawned session loop in `__next_client`
(`server/mod.rs`).  Each arm is a direct translation of the corresponding
`match` branch of the source:
  - `Ok((value, recipients))`: compute `should_send`; if true, send the
    value through `response_sender` and give a send failure to
    `handle_broadcast_send_err`;
  - `Err(e)` on the bus: call `handle_broadcast_recv_err`;
  - `Ok(Some(msg))`: call `handle_client_message`;
  - `Ok(None)`: no statement in the source — the state is unchanged;
  - `Err(_e)` on the client stream: call `handle_bad_message`.
No branch breaks out of the loop, so `status` is never modified. -/
def sessionStep {M T S E : Type} [DecidableEq T] (hooks : ServerHooks M T S E)
    (id : T) (st : SessionState T S) (ev : SessionEvent M T E) :
    SessionState T S :=
  match ev with
  | .busMsg value recipients sendErr =>
    let should_send :=
      match recipients with
      | .everyone => true
      | .singleRecipient recipient => recipient == id
      | .multipleRecipients recipients => recipients.contains id
    if should_send then
      let channels :=
        { st.channels with responses := st.channels.responses ++ [value] }
      match sendErr with
      | some e =>
        { st with
          channels
          state := hooks.handleBroadcastSendErr e st.state }
      | none => { st with channels }
    else st
  | .busRecvErr e =>
    { st with state := hooks.handleBroadcastRecvErr e st.state }
  | .clientMsg m =>
    let next := hooks.handleClientMessage m id st.channels st.state
    { st with channels := next.1, state := next.2 }
  | .clientEOF => st
  | .clientDecodeErr =>
    let next := hooks.handleBadMessage id st.channels st.state
    { st with channels := next.1, state := next.2 }

/-! ## The acceptor loop (`start_with_listener` and the fallible prefix of
`__next_client`)

`start_with_listener` runs `loop { self.__next_client(..).await?; }`.  Every
fallible step of `__next_client` before the `tokio::spawn` — the `accept`,
`into_std`, `try_clone` and the two `from_std` calls — uses `?`, so its
error is returned to `start_with_listener`, whose own `?` leaves the loop
and returns the error to the caller.  The environment's outcome for each of
those five calls on one incoming connection is an input of the model. -/

/-- Model of an I/O error (`std::io::Error` / `anyhow::Error`). -/
structure IOErr where
  msg : String
deriving DecidableEq

/-- Environment outcomes for the five fallible calls performed for one
connection in `__next_client` before the session task is spawned. -/
structure ConnEnv where
  accept : Except IOErr Unit
  intoStd : Except IOErr Unit
  tryClone : Except IOErr Unit
  fromStdDe : Except IOErr Unit
  fromStdSer : Except IOErr Unit

/-- The fallible prefix of `__next_client` (`server/mod.rs`): each `?` in
the source propagates the first error; on success the session task is
spawned and `Ok(())` is returned. -/
def nextClient (env : ConnEnv) : Except IOErr Unit := do
  let _ ← env.accept
  let _ ← env.intoStd
  let _ ← env.tryClone
  let _ ← env.fromStdDe
  let _ ← env.fromStdSer
  pure ()

/-- The accept loop of `start_with_listener` over a finite trace of
connection outcomes: `__next_client` is awaited for each incoming
connection and its error, if any, is propagated by `?`, ending the loop.
The result is the number of session tasks spawned together with the error
that stopped the loop, if any. -/
def acceptorRun : List ConnEnv → Nat × Option IOErr
  | [] => (0, none)
  | env :: rest =>
    match nextClient env with
    | .error e => (0, some e)
    | .ok _ =>
      let next := acceptorRun rest
      (next.1 + 1, next.2)

/-! ## State handles in `__next_client` (claim about `get_state` data flow)

`start_with_listener` passes `self.get_state()` into `__next_client`; that
value receives the `on_join` call that mints the id and is then dropped.
Afterwards `__next_client` evaluates `let mut state = self.get_state();`
a second time and moves that second value into the spawned session task.
`getState` is a pure function of the server (`&self`), so both calls
observe the same server value `w`. -/

/-- The state/id data flow of `__next_client` when `get_state` returns an
independent state value: `on_join` runs on the first `get_state()` result,
whose mutated version is dropped, and the session task receives a second,
separately obtained `get_state()` result. -/
def nextClientStates {W S ID : Type} (getState : W → S)
    (onJoin : S → ID × S) (w : W) : ID × S :=
  let state1 := getState w
  let id := (onJoin state1).1
  let state2 := getState w
  (id, state2)

/-- The same data flow when `get_state` returns a handle to shared state:
the handle is an address into a heap, `get_state` returns the same address
on every call (cloning an `Arc` clones the pointer), and `on_join` mutates
the heap cell behind the handle.  The session task receives a second handle
to the same cell and therefore observes the mutation. -/
def nextClientStatesShared {T ID : Type} (addr : Nat) (heap : Nat → T)
    (onJoinInner : T → ID × T) : ID × (Nat → T) × Nat :=
  let handle1 := addr
  let joined := onJoinInner (heap handle1)
  let heap' := fun a => if a = handle1 then joined.2 else heap a
  let handle2 := addr
  (joined.1, heap', handle2)

/-! ## The `State` trait and its mutex adapters (`server/state.rs`) -/

/-- The `State` trait: `fn on_join(&mut self) -> Self::ClientID`.  The
`&mut self` receiver becomes an explicit state component in the result. -/
structure StateImpl (S ID : Type) where
  on_join : S → ID × S

/-- Model of `std::sync::Mutex<T>`: the guarded value plus the poison flag.
`lock()` returns `Err` when the mutex is poisoned. -/
structure StdMutex (T : Type) where
  poisoned : Bool
  inner : T

/-- `std::sync::Mutex::lock`, returning `Err(PoisonError)` on a poisoned
mutex. -/
def StdMutex.lock {T : Type} (m : StdMutex T) : Except Unit T :=
  if m.poisoned then .error () else .ok m.inner

/-- The blanket impl `State for Arc<std::sync::Mutex<T>>` from `state.rs`:
`self.lock().unwrap().on_join()`.  The `.unwrap()` panics when `lock`
returns `Err`, which the embedding renders as `none`; otherwise the inner
`on_join` runs on the guarded value and its state effect lands back in the
cell. -/
def arcStdMutexOnJoin {T ID : Type} (inner : StateImpl T ID)
    (m : StdMutex T) : Option (ID × StdMutex T) :=
  match m.lock with
  | .error _ => none
  | .ok t =>
    let joined := inner.on_join t
    some (joined.1, { m with inner := joined.2 })

/-- Model of `parking_lot::Mutex<T>`: no poisoning, just the guarded
value. -/
structure PlMutex (T : Type) where
  inner : T

/-- The blanket impl `State for Arc<parking_lot::Mutex<T>>` from
`state.rs`: `self.lock().on_join()`; `parking_lot`'s `lock` cannot fail. -/
def arcPlMutexOnJoin {T ID : Type} (inner : StateImpl T ID) (m : PlMutex T) :
    ID × PlMutex T :=
  let joined := inner.on_join m.inner
  (joined.1, { inner := joined.2 })

/-! ## The broadcast bus (model of `tokio::sync::broadcast`)

`start_with_listener` creates the bus with
`broadcast::channel::<(Value, Recipients<ClientID>)>(10)`.  The channel is
a bounded ring holding the most recent `capacity` published messages; a
subscriber is a cursor into the publish history.  When a subscriber's
cursor has fallen more than `capacity` behind the publish count, its next
`recv` returns `RecvError::Lagged(missed)` and the cursor jumps to the
oldest retained message; publishing itself never blocks. -/

/-- The capacity argument of the `broadcast::channel(10)` call in
`start_with_listener` (`server/mod.rs`). -/
def busCapacity : Nat := 10

/-- Outcome of one `broadcast::Receiver::recv` call. -/
inductive BusRecvOutcome (A : Type) where
  /-- No message available yet (`recv` would suspend). -/
  | pending
  /-- The next message in publish order. -/
  | msg (a : A)
  /-- `RecvError::Lagged(missed)`. -/
  | lagged (missed : Nat)

/-- `broadcast::Sender::send`: appends to the publish history and never
blocks. -/
def busPublish {A : Type} (published : List A) (a : A) : List A :=
  published ++ [a]

/-- One `broadcast::Receiver::recv` step for a subscriber whose cursor is
`cursor` against a history of `published` messages, for a channel of
capacity `cap`: messages older than `published.length - cap` are gone, so a
cursor further behind than `cap` observes `Lagged` and is moved to the
oldest retained message. -/
def busRecv {A : Type} (cap : Nat) (published : List A) (cursor : Nat) :
    BusRecvOutcome A × Nat :=
  let n := published.length
  if n ≤ cursor then (.pending, cursor)
  else if cap < n - cursor then (.lagged (n - cursor - cap), n - cap)
  else
    match published.get? cursor with
    | some a => (.msg a, cursor + 1)
    | none => (.pending, cursor)

/-! ## The wire codec (model of `serde_json` + `LengthDelimitedCodec`)

`__next_client` builds the framed channel pair as
`SymmetricallyFramed::new(FramedWrite/FramedRead(stream, LengthDelimitedCodec::new()), SymmetricalJson)`:
each frame is a 4-byte big-endian length header followed by that many bytes
of compact UTF-8 JSON, with `LengthDelimitedCodec`'s default maximum frame
length of `8 * 1024 * 1024` bytes enforced on both encode and decode.  The
printer below follows `serde_json`'s compact output (escaping `"`, `\` and
control characters, raw UTF-8 for everything else); the parser is the
matching model of `serde_json::from_slice`, requiring the whole payload to
be one value. -/

/-- The decimal digit characters, used by the integer printer. -/
def digitChar : Nat → Char
  | 0 => '0'
  | 1 => '1'
  | 2 => '2'
  | 3 => '3'
  | 4 => '4'
  | 5 => '5'
  | 6 => '6'
  | 7 => '7'
  | 8 => '8'
  | _ => '9'

/-- Decimal printing of a natural number, most significant digit first;
`fuel` bounds the number of digits and any `fuel > n` is enough. -/
def natToCharsAux : Nat → Nat → List Char
  | 0, _ => []
  | fuel + 1, n =>
    if n < 10 then [digitChar n]
    else natToCharsAux fuel (n / 10) ++ [digitChar (n % 10)]

/-- Decimal printing of a natural number. -/
def natToChars (n : Nat) : List Char := natToCharsAux (n + 1) n

/-- `serde_json`'s printing of an integer number: a minus sign for negative
values, then the decimal digits. -/
def intToChars : Int → List Char
  | .ofNat n => natToChars n
  | .negSucc m => '-' :: natToChars (m + 1)

/-- Lower-case hexadecimal digits, used in `\u00XX` escapes. -/
def hexChar : Nat → Char
  | 0 => '0'
  | 1 => '1'
  | 2 => '2'
  | 3 => '3'
  | 4 => '4'
  | 5 => '5'
  | 6 => '6'
  | 7 => '7'
  | 8 => '8'
  | 9 => '9'
  | 10 => 'a'
  | 11 => 'b'
  | 12 => 'c'
  | 13 => 'd'
  | 14 => 'e'
  | _ => 'f'

/-- `serde_json`'s escaping of one character inside a JSON string: `"` and
`\` get a backslash escape, the control characters with short escapes use
them, the remaining control characters become `\u00XX`, and every other
character is emitted as itself. -/
def escapeChar (c : Char) : List Char :=
  if c = '"' then ['\\', '"']
  else if c = '\\' then ['\\', '\\']
  else if c = '\x08' then ['\\', 'b']
  else if c = '\t' then ['\\', 't']
  else if c = '\n' then ['\\', 'n']
  else if c = '\x0c' then ['\\', 'f']
  else if c = '\r' then ['\\', 'r']
  else if c.toNat < 32 then
    ['\\', 'u', '0', '0', hexChar (c.toNat / 16), hexChar (c.toNat % 16)]
  else [c]

/-- Escape every character of a string body. -/
def escapeChars : List Char → List Char
  | [] => []
  | c :: cs => escapeChar c ++ escapeChars cs

/-- The keyword `null` as characters. -/
def nullChars : List Char := "null".data

/-- The keyword `true` as characters. -/
def trueChars : List Char := "true".data

/-- The keyword `false` as characters. -/
def falseChars : List Char := "false".data

mutual

/-- Compact `serde_json` printing of a value. -/
def printJson : Json → List Char
  | .null => nullChars
  | .bool b => if b then trueChars else falseChars
  | .num i => intToChars i
  | .str s => '"' :: (escapeChars s.data ++ ['"'])
  | .arr l => '[' :: (printElems l ++ [']'])
  | .obj ms => '\x7b' :: (printMembers ms ++ ['\x7d'])

/-- Comma-separated printing of array elements. -/
def printElems : JsonList → List Char
  | .nil => []
  | .cons x .nil => printJson x
  | .cons x (.cons y ys) => printJson x ++ ',' :: printElems (.cons y ys)

/-- Comma-separated printing of object members, each as `"key":value`. -/
def printMembers : JsonMembers → List Char
  | .nil => []
  | .cons k v .nil => '"' :: (escapeChars k.data ++ '"' :: ':' :: printJson v)
  | .cons k v (.cons k2 v2 ms) =>
    ('"' :: (escapeChars k.data ++ '"' :: ':' :: printJson v)) ++
      ',' :: printMembers (.cons k2 v2 ms)

end

/-- Decimal digit test on a character, by code point. -/
def isDigitChar (c : Char) : Bool :=
  decide (48 ≤ c.toNat ∧ c.toNat ≤ 57)

/-- Accumulating decimal parse: consume leading digits, fold them onto
`acc`. -/
def parseDigits (acc : Nat) : List Char → Nat × List Char
  | [] => (acc, [])
  | c :: rest =>
    if isDigitChar c then parseDigits (acc * 10 + (c.toNat - 48)) rest
    else (acc, c :: rest)

/-- Parse a JSON integer: an optional minus sign followed by at least one
digit. -/
def parseNumber : List Char → Option (Int × List Char)
  | [] => none
  | c :: rest =>
    if c = '-' then
      match rest with
      | [] => none
      | d :: _ =>
        if isDigitChar d then
          let p := parseDigits 0 rest
          some (-(p.1 : Int), p.2)
        else none
    else if isDigitChar c then
      let p := parseDigits 0 (c :: rest)
      some ((p.1 : Int), p.2)
    else none

/-- Value of one hexadecimal digit character (either case). -/
def hexVal (c : Char) : Option Nat :=
  if 48 ≤ c.toNat ∧ c.toNat ≤ 57 then some (c.toNat - 48)
  else if 97 ≤ c.toNat ∧ c.toNat ≤ 102 then some (c.toNat - 87)
  else if 65 ≤ c.toNat ∧ c.toNat ≤ 70 then some (c.toNat - 55)
  else none

/-- Prepend a decoded character to the result of a string-body parse. -/
def consStr (c : Char) : Option (List Char × List Char) →
    Option (List Char × List Char)
  | some (cs, r) => some (c :: cs, r)
  | none => none

/-- Parse the body of a JSON string up to and including the closing quote,
decoding escapes; raw control characters and lone surrogate escapes are
rejected, as `serde_json` rejects them.  `fuel` bounds the number of
decoded characters; any `fuel` above the input length is enough. -/
def parseStrChars : Nat → List Char → Option (List Char × List Char)
  | 0, _ => none
  | _ + 1, [] => none
  | fuel + 1, c :: rest =>
    if c = '"' then some ([], rest)
    else if c = '\\' then
      match rest with
      | [] => none
      | e :: rest2 =>
        if e = '"' ∨ e = '\\' ∨ e = '/' then
          consStr e (parseStrChars fuel rest2)
        else if e = 'b' then consStr '\x08' (parseStrChars fuel rest2)
        else if e = 'f' then consStr '\x0c' (parseStrChars fuel rest2)
        else if e = 'n' then consStr '\n' (parseStrChars fuel rest2)
        else if e = 'r' then consStr '\r' (parseStrChars fuel rest2)
        else if e = 't' then consStr '\t' (parseStrChars fuel rest2)
        else if e = 'u' then
          match rest2 with
          | h1 :: h2 :: h3 :: h4 :: rest6 =>
            match hexVal h1, hexVal h2, hexVal h3, hexVal h4 with
            | some a, some b, some c2, some d =>
              let n := ((a * 16 + b) * 16 + c2) * 16 + d
              if 55296 ≤ n ∧ n < 57344 then none
              else consStr (Char.ofNat n) (parseStrChars fuel rest6)
            | _, _, _, _ => none
          | _ => none
        else none
    else if c.toNat < 32 then none
    else consStr c (parseStrChars fuel rest)

mutual

/-- Recursive-descent parse of one compact JSON value.  `fuel` bounds the
recursion depth; every recursive call decreases it. -/
def parseValue : Nat → List Char → Option (Json × List Char)
  | 0, _ => none
  | _ + 1, [] => none
  | fuel + 1, c :: rest =>
    if c = 'n' then
      match rest with
      | 'u' :: 'l' :: 'l' :: r => some (.null, r)
      | _ => none
    else if c = 't' then
      match rest with
      | 'r' :: 'u' :: 'e' :: r => some (.bool true, r)
      | _ => none
    else if c = 'f' then
      match rest with
      | 'a' :: 'l' :: 's' :: 'e' :: r => some (.bool false, r)
      | _ => none
    else if c = '"' then
      match parseStrChars (rest.length + 1) rest with
      | some (cs, r) => some (.str (String.mk cs), r)
      | none => none
    else if c = '[' then
      match rest with
      | ']' :: r => some (.arr .nil, r)
      | _ =>
        match parseElems fuel rest with
        | some (l, r) => some (.arr l, r)
        | none => none
    else if c = '\x7b' then
      match rest with
      | '\x7d' :: r => some (.obj .nil, r)
      | _ =>
        match parseMembers fuel rest with
        | some (ms, r) => some (.obj ms, r)
        | none => none
    else
      match parseNumber (c :: rest) with
      | some (i, r) => some (.num i, r)
      | none => none

/-- Parse one or more comma-separated array elements and the closing
bracket. -/
def parseElems : Nat → List Char → Option (JsonList × List Char)
  | 0, _ => none
  | fuel + 1, input =>
    match parseValue fuel input with
    | some (v, ',' :: r2) =>
      match parseElems fuel r2 with
      | some (vs, r3) => some (.cons v vs, r3)
      | none => none
    | some (v, ']' :: r2) => some (.cons v .nil, r2)
    | _ => none

/-- Parse one or more comma-separated `"key":value` members and the closing
brace. -/
def parseMembers : Nat → List Char → Option (JsonMembers × List Char)
  | 0, _ => none
  | fuel + 1, input =>
    match input with
    | '"' :: r0 =>
      match parseStrChars (r0.length + 1) r0 with
      | some (cs, ':' :: r1) =>
        match parseValue fuel r1 with
        | some (v, ',' :: r2) =>
          match parseMembers fuel r2 with
          | some (ms, r3) => some (.cons (String.mk cs) v ms, r3)
          | none => none
        | some (v, '\x7d' :: r2) => some (.cons (String.mk cs) v .nil, r2)
        | _ => none
      | _ => none
    | _ => none

end

/-- UTF-8 encoding of one character, as the list of its byte values. -/
def utf8EncodeChar (c : Char) : List Nat :=
  let n := c.toNat
  if n < 128 then [n]
  else if n < 2048 then [192 + n / 64, 128 + n % 64]
  else if n < 65536 then
    [224 + n / 4096, 128 + n / 64 % 64, 128 + n % 64]
  else
    [240 + n / 262144, 128 + n / 4096 % 64, 128 + n / 64 % 64, 128 + n % 64]

/-- UTF-8 encoding of a character sequence. -/
def utf8Encode : List Char → List Nat
  | [] => []
  | c :: cs => utf8EncodeChar c ++ utf8Encode cs

/-- Prepend a decoded character to the result of a UTF-8 decode. -/
def consChar (c : Char) : Option (List Char) → Option (List Char)
  | some cs => some (c :: cs)
  | none => none

/-- Decode the scalar value of a 2-byte UTF-8 sequence, rejecting malformed
continuation bytes and overlong encodings. -/
def utf8Scalar2 (b0 b1 : Nat) : Option Nat :=
  if 128 ≤ b1 ∧ b1 < 192 then
    if (b0 - 192) * 64 + (b1 - 128) < 128 then none
    else some ((b0 - 192) * 64 + (b1 - 128))
  else none

/-- Decode the scalar value of a 3-byte UTF-8 sequence, rejecting malformed
continuation bytes, overlong encodings and surrogates. -/
def utf8Scalar3 (b0 b1 b2 : Nat) : Option Nat :=
  if (128 ≤ b1 ∧ b1 < 192) ∧ (128 ≤ b2 ∧ b2 < 192) then
    if (b0 - 224) * 4096 + (b1 - 128) * 64 + (b2 - 128) < 2048 then none
    else if 55296 ≤ (b0 - 224) * 4096 + (b1 - 128) * 64 + (b2 - 128)
        ∧ (b0 - 224) * 4096 + (b1 - 128) * 64 + (b2 - 128) < 57344 then none
    else some ((b0 - 224) * 4096 + (b1 - 128) * 64 + (b2 - 128))
  else none

/-- Decode the scalar value of a 4-byte UTF-8 sequence, rejecting malformed
continuation bytes, overlong encodings and out-of-range values. -/
def utf8Scalar4 (b0 b1 b2 b3 : Nat) : Option Nat :=
  if (128 ≤ b1 ∧ b1 < 192) ∧ (128 ≤ b2 ∧ b2 < 192)
      ∧ (128 ≤ b3 ∧ b3 < 192) then
    if (b0 - 240) * 262144 + (b1 - 128) * 4096 + (b2 - 128) * 64
        + (b3 - 128) < 65536 then none
    else if 1114112 ≤ (b0 - 240) * 262144 + (b1 - 128) * 4096
        + (b2 - 128) * 64 + (b3 - 128) then none
    else some ((b0 - 240) * 262144 + (b1 - 128) * 4096 + (b2 - 128) * 64
        + (b3 - 128))
  else none

/-- UTF-8 decoding of a byte sequence, rejecting malformed, overlong,
surrogate and out-of-range sequences.  `fuel` bounds the number of decoded
characters; any `fuel` above the byte count is enough. -/
def utf8Decode : Nat → List Nat → Option (List Char)
  | 0, _ => none
  | _ + 1, [] => some []
  | fuel + 1, b :: rest =>
    if b < 128 then consChar (Char.ofNat b) (utf8Decode fuel rest)
    else if b < 192 then none
    else if b < 224 then
      match rest with
      | b1 :: rest1 =>
        match utf8Scalar2 b b1 with
        | some n => consChar (Char.ofNat n) (utf8Decode fuel rest1)
        | none => none
      | [] => none
    else if b < 240 then
      match rest with
      | b1 :: b2 :: rest2 =>
        match utf8Scalar3 b b1 b2 with
        | some n => consChar (Char.ofNat n) (utf8Decode fuel rest2)
        | none => none
      | _ => none
    else if b < 248 then
      match rest with
      | b1 :: b2 :: b3 :: rest3 =>
        match utf8Scalar4 b b1 b2 b3 with
        | some n => consChar (Char.ofNat n) (utf8Decode fuel rest3)
        | none => none
      | _ => none
    else none

/-- `LengthDelimitedCodec`'s default `max_frame_length`: 8 MiB. -/
def maxFrameLen : Nat := 8 * 1024 * 1024

/-- The 4-byte big-endian length header of `LengthDelimitedCodec`. -/
def lenBytes (n : Nat) : List Nat :=
  [n / 16777216 % 256, n / 65536 % 256, n / 256 % 256, n % 256]

/-- Encode one application value as a wire frame: serialize to compact
UTF-8 JSON, then prepend the 4-byte big-endian byte length.  Encoding fails
(`FrameTooBig`) when the payload exceeds `max_frame_length`, as
`LengthDelimitedCodec::encode` fails. -/
def encodeFrame (v : Json) : Option (List Nat) :=
  let payload := utf8Encode (printJson v)
  if payload.length ≤ maxFrameLen then some (lenBytes payload.length ++ payload)
  else none

/-- Decode one wire frame from the front of a byte stream: read the 4-byte
big-endian length, check it against `max_frame_length`, take that many
payload bytes, UTF-8 decode them and parse them as exactly one JSON value
(`serde_json::from_slice` rejects trailing characters).  Returns the value
and the remaining bytes of the stream. -/
def decodeFrame (bs : List Nat) : Option (Json × List Nat) :=
  match bs with
  | b0 :: b1 :: b2 :: b3 :: rest =>
    let n := ((b0 * 256 + b1) * 256 + b2) * 256 + b3
    if n ≤ maxFrameLen then
      if n ≤ rest.length then
        match utf8Decode (n + 1) (rest.take n) with
        | some chars =>
          match parseValue (chars.length + 1) chars with
          | some (v, []) => some (v, rest.drop n)
          | _ => none
        | none => none
      else none
    else none
  | _ => none

/-! ## Auxiliary measures and concrete instances used in the statements -/

/-- Whether a character sequence does not start with a decimal digit; the
context in which a printed JSON number is followed by more input. -/
def headNotDigit : List Char → Bool
  | [] => true
  | c :: _ => !isDigitChar c

mutual

/-- Recursion budget needed by `parseValue` on the printed form of a
value. -/
def jsonFuel : Json → Nat
  | .arr l => 1 + elemsFuel l
  | .obj ms => 1 + membersFuel ms
  | _ => 1

/-- Recursion budget needed by `parseElems` on a printed element list. -/
def elemsFuel : JsonList → Nat
  | .nil => 0
  | .cons x xs => 1 + jsonFuel x + elemsFuel xs

/-- Recursion budget needed by `parseMembers` on a printed member list. -/
def membersFuel : JsonMembers → Nat
  | .nil => 0
  | .cons _ v ms => 1 + jsonFuel v + membersFuel ms

end

/-- A server whose overridable hooks are all the defaults and whose message
handler does nothing: the minimal concrete `Server` instance. -/
def noopHooks : ServerHooks Unit Nat Unit Unit where
  handleClientMessage := fun _ _ channels state => (channels, state)
  handleBadMessage := defaultHandleBadMessage
  handleBroadcastSendErr := defaultHandleBroadcastSendErr
  handleBroadcastRecvErr := defaultHandleBroadcastRecvErr

/-- A freshly spawned session for the minimal server: empty channels,
unit state, active loop. -/
def session0 : SessionState Nat Unit where
  channels := { responses := [], broadcasts := [] }
  state := ()
  status := .active

/-- A connection on which all five fallible setup calls succeed. -/
def connOk : ConnEnv where
  accept := .ok ()
  intoStd := .ok ()
  tryClone := .ok ()
  fromStdDe := .ok ()
  fromStdSer := .ok ()

/-- A connection that is accepted but whose socket duplication
(`try_clone`) fails. -/
def connCloneFail : ConnEnv where
  accept := .ok ()
  intoStd := .ok ()
  tryClone := .error { msg := "dup failed" }
  fromStdDe := .ok ()
  fromStdSer := .ok ()

/-- A concrete nested message value with a multi-byte string, used to
witness the frame round trip. -/
def jsonW : Json :=
  .obj (.cons "α"
    (.arr (.cons (.num (-5)) (.cons (.str "héllo")
      (.cons .null (.cons (.bool true) .nil)))))
    .nil)

/-- The encoded frame of `jsonW`. -/
def frameW : List Nat := (encodeFrame jsonW).getD []

/-! ## Theorems -/

/-- Claim C1: for every routed message `(payload, selector)` a session
receives from the broadcast bus, the session forwards the payload to its
client (pushes it into `response_sender`) iff the selector matches the
session id; and the selector evaluation satisfies: `Everyone` always
matches, `SingleRecipient { recipient }` matches iff `recipient = id`,
`MultipleRecipients { recipients }` matches iff `id` is an element of
`recipients`. -/
theorem c1_forwards_iff_selector_matches {M T S E : Type} [DecidableEq T]
    (hooks : ServerHooks M T S E) (id : T) (st : SessionState T S)
    (v : Json) (r : Recipients T) (se : Option E) :
    ((sessionStep hooks id st (.busMsg v r se)).channels.responses
      = st.channels.responses ++ (if r.matches id then [v] else []))
    ∧ Recipients.matches (.everyone : Recipients T) id = true
    ∧ (∀ r0 : T, Recipients.matches (.singleRecipient r0) id = true ↔ r0 = id)
    ∧ (∀ rs : List T,
        Recipients.matches (.multipleRecipients rs) id = true ↔ id ∈ rs) := by
  refine ⟨?_, rfl, ?_, ?_⟩
  · cases r with
    | everyone => cases se <;> simp [sessionStep, Recipients.matches]
    | singleRecipient r0 =>
      by_cases h : r0 == id
      · cases se <;> simp [sessionStep, Recipients.matches, h]
      · simp only [Bool.not_eq_true] at h
        simp [sessionStep, Recipients.matches, h]
    | multipleRecipients rs =>
      by_cases h : id ∈ rs
      · cases se <;> simp [sessionStep, Recipients.matches, List.contains, h]
      · simp [sessionStep, Recipients.matches, List.contains, h]
  · intro r0
    simp [Recipients.matches]
  · intro rs
    simp [Recipients.matches, List.contains]

/-- Claim C2, counterexample: on the trace
`[connCloneFail, connOk]` — a connection whose socket duplication fails,
followed by a perfectly good connection — the accept loop of
`start_with_listener` stops with the setup error and spawns no session at
all, although the later connection would have succeeded.  This refutes
"a per-connection setup failure never stops the accept loop; the server
keeps accepting subsequent connections". -/
theorem c2_counterexample :
    acceptorRun [connCloneFail, connOk] = (0, some { msg := "dup failed" })
    ∧ nextClient connOk = .ok () := by
  exact ⟨rfl, rfl⟩

/-- Claim C2, amended: a per-connection setup failure (socket duplication
or descriptor conversion) in `__next_client` is propagated by `?` into
`start_with_listener`, whose own `?` stops the accept loop and returns the
error to the caller; no later connection is accepted. -/
theorem c2_setup_error_stops_acceptor (env : ConnEnv) (rest : List ConnEnv)
    (e : IOErr) (h : nextClient env = .error e) :
    acceptorRun (env :: rest) = (0, some e) := by
  simp [acceptorRun, h]

/-- Witness for `c2_setup_error_stops_acceptor` at the concrete trace of
`c2_counterexample`'s shape. -/
theorem c2_setup_error_stops_acceptor_witness :
    acceptorRun [connCloneFail, connOk, connOk]
      = (0, some { msg := "dup failed" }) :=
  c2_setup_error_stops_acceptor connCloneFail [connOk, connOk]
    { msg := "dup failed" } rfl

/-- Claim C3 (code bug): when the inbound half yields end-of-stream
(`Ok(None)` from `try_next`), the session loop body executes no statement:
the session stays `active`, its channels and subscription are retained and
the loop keeps running, instead of transitioning to `Closed` and ending
the task as specified. -/
theorem c3_eof_is_ignored {M T S E : Type} [DecidableEq T]
    (hooks : ServerHooks M T S E) (id : T) (st : SessionState T S) :
    sessionStep hooks id st (SessionEvent.clientEOF : SessionEvent M T E) = st
    ∧ (sessionStep hooks id st
        (SessionEvent.clientEOF : SessionEvent M T E)).status = st.status := by
  exact ⟨rfl, rfl⟩

/-- Claim C4: `everyone_but(id, clients)` is a `MultipleRecipients` whose
recipient list holds exactly the elements of `clients` different from
`id`, and the result never matches `id` itself. -/
theorem c4_everyone_but {T : Type} [DecidableEq T] (id : T)
    (clients : List T) :
    (Recipients.everyone_but id clients).isMultiple = true
    ∧ (∀ x, x ∈ (Recipients.everyone_but id clients).recipientList
        ↔ (x ∈ clients ∧ x ≠ id))
    ∧ (Recipients.everyone_but id clients).matches id = false := by
  refine ⟨rfl, ?_, ?_⟩
  · intro x
    simp [Recipients.everyone_but, Recipients.recipientList, List.mem_filter]
  · have hnm : id ∉ clients.filter (fun x => !(x == id)) := by
      simp [List.mem_filter]
    simp [Recipients.everyone_but, Recipients.matches, List.contains, hnm]

/-- Claim C5, counterexample: delivering the bus-closed notice
(`RecvError::Closed`) to a concrete session of the minimal server leaves
the session completely unchanged and still `active`: the event loop does
not terminate, refuting "the session's event loop terminates". -/
theorem c5_counterexample :
    (sessionStep noopHooks 0 session0
        (SessionEvent.busRecvErr .closed)).status ≠ SessionStatus.closed
    ∧ sessionStep noopHooks 0 session0 (SessionEvent.busRecvErr .closed)
      = session0 := by
  exact ⟨by decide, rfl⟩

/-- Claim C5, amended: when the session's bus subscription reports that the
bus is closed, the session passes the error to
`handle_broadcast_recv_err` — exactly as for a lag notice — and continues
its loop; the loop body has no exit path, so the event does not terminate
the session (and it affects no other session, each session owning its own
state record). -/
theorem c5_bus_closed_hits_recv_hook {M T S E : Type} [DecidableEq T]
    (hooks : ServerHooks M T S E) (id : T) (st : SessionState T S)
    (e : RecvError) :
    sessionStep hooks id st (SessionEvent.busRecvErr e : SessionEvent M T E)
      = { st with state := hooks.handleBroadcastRecvErr e st.state }
    ∧ (sessionStep hooks id st
        (SessionEvent.busRecvErr .closed : SessionEvent M T E)).status
      = st.status := by
  exact ⟨rfl, rfl⟩

/-- Claim C6: a decode error on the inbound stream makes the session call
the bad-message hook with the session id, the message channels and the
state; the default hook returns both unchanged; the session stays active
and a subsequent well-formed frame is handled by `handle_client_message`
exactly as if the bad frame had not happened. -/
theorem c6_bad_message_hook {M T S E : Type} [DecidableEq T]
    (hooks : ServerHooks M T S E) (id : T) (st : SessionState T S) (m : M) :
    (sessionStep hooks id st
        (SessionEvent.clientDecodeErr : SessionEvent M T E)
      = { st with
          channels := (hooks.handleBadMessage id st.channels st.state).1
          state := (hooks.handleBadMessage id st.channels st.state).2 })
    ∧ (∀ (c : Channels T) (s : S), defaultHandleBadMessage id c s = (c, s))
    ∧ ((sessionStep hooks id st
        (SessionEvent.clientDecodeErr : SessionEvent M T E)).status
      = st.status)
    ∧ (sessionStep { hooks with handleBadMessage := defaultHandleBadMessage }
        id
        (sessionStep
          { hooks with handleBadMessage := defaultHandleBadMessage } id st
          (SessionEvent.clientDecodeErr : SessionEvent M T E))
        (SessionEvent.clientMsg m : SessionEvent M T E)
      = sessionStep hooks id st
          (SessionEvent.clientMsg m : SessionEvent M T E)) := by
  exact ⟨rfl, fun _ _ => rfl, rfl, rfl⟩

/-- Claim C7: the broadcast bus is created with capacity 10; a subscriber
that has fallen behind the publish count by more than the capacity gets a
lagged notice (with the number of missed messages) from its next receive,
while publishing never blocks; the session gives the notice to
`handle_broadcast_recv_err`, whose default leaves the session unchanged
and still looping. -/
theorem c7_capacity_and_lag {A M T S E : Type} [DecidableEq T]
    (published : List A) (cursor : Nat) (hooks : ServerHooks M T S E)
    (id : T) (st : SessionState T S) (n : Nat)
    (h : busCapacity < published.length - cursor) :
    busCapacity = 10
    ∧ (busRecv busCapacity published cursor).1
      = BusRecvOutcome.lagged (published.length - cursor - busCapacity)
    ∧ (∀ a, busPublish published a = published ++ [a])
    ∧ sessionStep hooks id st
        (SessionEvent.busRecvErr (.lagged n) : SessionEvent M T E)
      = { st with state := hooks.handleBroadcastRecvErr (.lagged n) st.state }
    ∧ sessionStep
        { hooks with handleBroadcastRecvErr := defaultHandleBroadcastRecvErr }
        id st (SessionEvent.busRecvErr (.lagged n) : SessionEvent M T E)
      = st := by
  refine ⟨rfl, ?_, fun _ => rfl, rfl, rfl⟩
  · have h1 : ¬ published.length ≤ cursor := by omega
    simp [busRecv, h1, h]

/-- Witness for `c7_capacity_and_lag`: 25 messages published, a subscriber
cursor at 3, 12 missed. -/
theorem c7_capacity_and_lag_witness :
    busCapacity = 10
    ∧ (busRecv busCapacity (List.range 25) 3).1
      = BusRecvOutcome.lagged ((List.range 25).length - 3 - busCapacity)
    ∧ (∀ a, busPublish (List.range 25) a = List.range 25 ++ [a])
    ∧ sessionStep noopHooks 0 session0
        (SessionEvent.busRecvErr (.lagged 12))
      = { session0 with
          state := noopHooks.handleBroadcastRecvErr (.lagged 12)
            session0.state }
    ∧ sessionStep
        { noopHooks with
          handleBroadcastRecvErr := defaultHandleBroadcastRecvErr }
        0 session0 (SessionEvent.busRecvErr (.lagged 12))
      = session0 :=
  c7_capacity_and_lag (List.range 25) 3 noopHooks 0 session0 12 (by decide)

/-- Claim C9: in `__next_client` the id is minted by `on_join` on the first
`get_state()` value while the session task receives a second, separately
obtained `get_state()` value; hence with a by-value `get_state` the
session's state is the pre-join value whatever `on_join` mutated, and the
mutation reaches the session only when `get_state` hands out a shared
handle (heap model), in which case the session's handle observes exactly
`on_join`'s effect. -/
theorem c9_two_get_state_values {W S ID T ID2 : Type} (getState : W → S)
    (onJoin : S → ID × S) (w : W) (addr : Nat) (heap : Nat → T)
    (onJoinInner : T → ID2 × T) :
    ((nextClientStates getState onJoin w).1 = (onJoin (getState w)).1)
    ∧ ((nextClientStates getState onJoin w).2 = getState w)
    ∧ ((onJoin (getState w)).2 ≠ getState w →
        (nextClientStates getState onJoin w).2 ≠ (onJoin (getState w)).2)
    ∧ ((nextClientStatesShared addr heap onJoinInner).2.1
        ((nextClientStatesShared addr heap onJoinInner).2.2)
      = (onJoinInner (heap addr)).2) := by
  refine ⟨rfl, rfl, ?_, ?_⟩
  · intro hne heq
    apply hne
    calc (onJoin (getState w)).2
        = (nextClientStates getState onJoin w).2 := heq.symm
      _ = getState w := rfl
  · simp [nextClientStatesShared]

/-- Witness for `c9_two_get_state_values`: a counter state minted by value
loses the increment (the session still sees 0, not 1), while the heap
handle sees the increment (6 out of 5). -/
theorem c9_two_get_state_values_witness :
    (nextClientStates (fun _ : Unit => (0 : Nat))
        (fun s => ((37 : Nat), s + 1)) ()).2 ≠ 1
    ∧ (nextClientStatesShared 0 (fun _ => (5 : Nat))
        (fun t => ((37 : Nat), t + 1))).2.1 0 = 6 := by
  have h := c9_two_get_state_values (fun _ : Unit => (0 : Nat))
    (fun s => ((37 : Nat), s + 1)) () 0 (fun _ => (5 : Nat))
    (fun t => ((37 : Nat), t + 1))
  exact ⟨h.2.2.1 (by decide), h.2.2.2⟩

/-- Claim C10: the blanket `State` impls for `Arc<std::sync::Mutex<T>>` and
`Arc<parking_lot::Mutex<T>>` are behaviourally the inner implementation:
on an unpoisoned mutex, `on_join` returns exactly the id `T::on_join`
returns on the guarded value and the only state effect is `T::on_join`'s
effect on that value. -/
theorem c10_mutex_adapters {T ID : Type} (inner : StateImpl T ID)
    (m : StdMutex T) (p : PlMutex T) (h : m.poisoned = false) :
    arcStdMutexOnJoin inner m
      = some ((inner.on_join m.inner).1,
          { poisoned := false, inner := (inner.on_join m.inner).2 })
    ∧ arcPlMutexOnJoin inner p
      = ((inner.on_join p.inner).1, { inner := (inner.on_join p.inner).2 }) := by
  constructor
  · simp [arcStdMutexOnJoin, StdMutex.lock, h]
  · rfl

/-- Witness for `c10_mutex_adapters` on a counter state guarded by an
unpoisoned mutex. -/
theorem c10_mutex_adapters_witness :
    arcStdMutexOnJoin ⟨fun s => (s, s + 1)⟩ ⟨false, (7 : Nat)⟩
      = some (7, { poisoned := false, inner := 8 })
    ∧ arcPlMutexOnJoin ⟨fun s => (s, s + 1)⟩ ⟨(7 : Nat)⟩ = (7, ⟨8⟩) :=
  c10_mutex_adapters ⟨fun s => (s, s + 1)⟩ ⟨false, 7⟩ ⟨7⟩ rfl

/-! ### Round trip of the number printer -/

theorem digitChar_toNat (d : Nat) (h : d < 10) : (digitChar d).toNat = 48 + d := by
  interval_cases d <;> rfl

theorem isDigitChar_digitChar (d : Nat) (h : d < 10) :
    isDigitChar (digitChar d) = true := by
  interval_cases d <;> decide

theorem natToCharsAux_head_digit : ∀ fuel n, n < fuel →
    ∃ d ds, natToCharsAux fuel n = d :: ds ∧ isDigitChar d = true := by
  intro fuel
  induction fuel with
  | zero => intro n h; omega
  | succ fuel ih =>
    intro n h
    by_cases h10 : n < 10
    · exact ⟨digitChar n, [], by simp [natToCharsAux, h10],
        isDigitChar_digitChar n h10⟩
    · have hdiv : n / 10 < fuel := by
        have : n / 10 < n := Nat.div_lt_self (by omega) (by omega)
        omega
      obtain ⟨d, ds, hds, hd⟩ := ih (n / 10) hdiv
      refine ⟨d, ds ++ [digitChar (n % 10)], ?_, hd⟩
      simp [natToCharsAux, h10, hds]

theorem natToChars_head_digit (n : Nat) :
    ∃ d ds, natToChars n = d :: ds ∧ isDigitChar d = true :=
  natToCharsAux_head_digit (n + 1) n (Nat.lt_succ_self n)

theorem parseDigits_natToCharsAux : ∀ fuel n acc rest, n < fuel →
    parseDigits acc (natToCharsAux fuel n ++ rest)
      = parseDigits (acc * 10 ^ (natToCharsAux fuel n).length + n) rest := by
  intro fuel
  induction fuel with
  | zero => intro n acc rest h; omega
  | succ fuel ih =>
    intro n acc rest h
    by_cases h10 : n < 10
    · have h1 : (digitChar n).toNat - 48 = n := by
        rw [digitChar_toNat n h10]; omega
      simp [natToCharsAux, h10, parseDigits, isDigitChar_digitChar n h10, h1]
    · have hdiv : n / 10 < fuel := by
        have : n / 10 < n := Nat.div_lt_self (by omega) (by omega)
        omega
      simp only [natToCharsAux, h10, if_false, List.append_assoc,
        List.cons_append, List.nil_append]
      rw [ih (n / 10) acc (digitChar (n % 10) :: rest) hdiv]
      have hd10 : n % 10 < 10 := Nat.mod_lt n (by omega)
      have h1 : (digitChar (n % 10)).toNat - 48 = n % 10 := by
        rw [digitChar_toNat _ hd10]; omega
      simp only [parseDigits, isDigitChar_digitChar _ hd10, if_true, h1,
        List.length_append, List.length_cons, List.length_nil]
      congr 1
      have hpow : 10 ^ ((natToCharsAux fuel (n / 10)).length + (0 + 1))
          = 10 ^ (natToCharsAux fuel (n / 10)).length * 10 := by
        rw [pow_succ]
      rw [hpow]
      generalize 10 ^ (natToCharsAux fuel (n / 10)).length = X
      ring_nf
      omega

theorem parseDigits_natToChars (n : Nat) (acc : Nat) (rest : List Char) :
    parseDigits acc (natToChars n ++ rest)
      = parseDigits (acc * 10 ^ (natToChars n).length + n) rest :=
  parseDigits_natToCharsAux (n + 1) n acc rest (Nat.lt_succ_self n)

theorem parseDigits_stop (acc : Nat) (rest : List Char)
    (h : headNotDigit rest = true) : parseDigits acc rest = (acc, rest) := by
  cases rest with
  | nil => rfl
  | cons c cs =>
    simp only [headNotDigit, Bool.not_eq_true'] at h
    simp [parseDigits, h]

theorem parseNumber_intToChars (i : Int) (rest : List Char)
    (h : headNotDigit rest = true) :
    parseNumber (intToChars i ++ rest) = some (i, rest) := by
  cases i with
  | ofNat n =>
    obtain ⟨d, ds, hds, hd⟩ := natToChars_head_digit n
    have hne : ¬ d = '-' := by
      intro hEq; subst hEq; revert hd; decide
    have hstep : parseDigits 0 (natToChars n ++ rest) = (n, rest) := by
      rw [parseDigits_natToChars, parseDigits_stop _ _ h]
      simp
    simp only [intToChars, hds, List.cons_append, parseNumber, hne,
      if_false, hd, if_true]
    rw [← List.cons_append, ← hds, hstep]
    rfl
  | negSucc m =>
    obtain ⟨d, ds, hds, hd⟩ := natToChars_head_digit (m + 1)
    have hstep : parseDigits 0 (natToChars (m + 1) ++ rest)
        = (m + 1, rest) := by
      rw [parseDigits_natToChars, parseDigits_stop _ _ h]
      simp
    simp only [intToChars, List.cons_append, hds, parseNumber]
    simp only [if_true, hd]
    rw [← List.cons_append, ← hds, hstep]
    simp [Int.negSucc_eq]

/-! ### Round trip of the string printer -/

theorem hexVal_hexChar (d : Nat) (h : d < 16) : hexVal (hexChar d) = some d := by
  interval_cases d <;> decide

theorem parseStrChars_escapeChars : ∀ cs : List Char, ∀ fuel rest,
    cs.length < fuel →
    parseStrChars fuel (escapeChars cs ++ '"' :: rest) = some (cs, rest) := by
  intro cs
  induction cs with
  | nil =>
    intro fuel rest h
    cases fuel with
    | zero => omega
    | succ f => rfl
  | cons c cs ih =>
    intro fuel rest h
    cases fuel with
    | zero => omega
    | succ f =>
    have ihf : parseStrChars f (escapeChars cs ++ '"' :: rest)
        = some (cs, rest) :=
      ih f rest (by simp only [List.length_cons] at h; omega)
    by_cases h1 : c = '"'
    · subst h1
      have step : parseStrChars (f + 1)
            (escapeChars ('"' :: cs) ++ '"' :: rest)
          = consStr '"' (parseStrChars f (escapeChars cs ++ '"' :: rest)) :=
        rfl
      rw [step, ihf]; rfl
    · by_cases h2 : c = '\\'
      · subst h2
        have step : parseStrChars (f + 1)
              (escapeChars ('\\' :: cs) ++ '"' :: rest)
            = consStr '\\'
                (parseStrChars f (escapeChars cs ++ '"' :: rest)) := rfl
        rw [step, ihf]; rfl
      · by_cases h3 : c = '\x08'
        · subst h3
          have step : parseStrChars (f + 1)
                (escapeChars ('\x08' :: cs) ++ '"' :: rest)
              = consStr '\x08'
                  (parseStrChars f (escapeChars cs ++ '"' :: rest)) := rfl
          rw [step, ihf]; rfl
        · by_cases h4 : c = '\t'
          · subst h4
            have step : parseStrChars (f + 1)
                  (escapeChars ('\t' :: cs) ++ '"' :: rest)
                = consStr '\t'
                    (parseStrChars f (escapeChars cs ++ '"' :: rest)) := rfl
            rw [step, ihf]; rfl
          · by_cases h5 : c = '\n'
            · subst h5
              have step : parseStrChars (f + 1)
                    (escapeChars ('\n' :: cs) ++ '"' :: rest)
                  = consStr '\n'
                      (parseStrChars f (escapeChars cs ++ '"' :: rest)) := rfl
              rw [step, ihf]; rfl
            · by_cases h6 : c = '\x0c'
              · subst h6
                have step : parseStrChars (f + 1)
                      (escapeChars ('\x0c' :: cs) ++ '"' :: rest)
                    = consStr '\x0c'
                        (parseStrChars f
                          (escapeChars cs ++ '"' :: rest)) := rfl
                rw [step, ihf]; rfl
              · by_cases h7 : c = '\r'
                · subst h7
                  have step : parseStrChars (f + 1)
                        (escapeChars ('\r' :: cs) ++ '"' :: rest)
                      = consStr '\r'
                          (parseStrChars f
                            (escapeChars cs ++ '"' :: rest)) := rfl
                  rw [step, ihf]; rfl
                · by_cases h8 : c.toNat < 32
                  · have hpr : escapeChars (c :: cs) ++ '"' :: rest
                        = '\\' :: 'u' :: '0' :: '0'
                          :: hexChar (c.toNat / 16) :: hexChar (c.toNat % 16)
                          :: (escapeChars cs ++ '"' :: rest) := by
                      simp [escapeChars, escapeChar, h1, h2, h3, h4, h5, h6,
                        h7, h8]
                    rw [hpr]
                    have e0 : hexVal '0' = some 0 := by decide
                    have e1 : hexVal (hexChar (c.toNat / 16))
                        = some (c.toNat / 16) := hexVal_hexChar _ (by omega)
                    have e2 : hexVal (hexChar (c.toNat % 16))
                        = some (c.toNat % 16) := hexVal_hexChar _ (by omega)
                    simp [parseStrChars, e0, e1, e2]
                    have harith : c.toNat / 16 * 16 + c.toNat % 16
                        = c.toNat := by omega
                    rw [harith]
                    refine ⟨by omega, ?_⟩
                    rw [Char.ofNat_toNat, ihf]
                    rfl
                  · have hpr : escapeChars (c :: cs) ++ '"' :: rest
                        = c :: (escapeChars cs ++ '"' :: rest) := by
                      simp [escapeChars, escapeChar, h1, h2, h3, h4, h5, h6,
                        h7, h8]
                    rw [hpr]
                    simp [parseStrChars, h1, h2, h8, ihf, consStr]

/-! ### Shape facts about printed values -/

theorem isDigitChar_ne (c : Char) (hd : isDigitChar c = true) :
    ¬(c = 'n') ∧ ¬(c = 't') ∧ ¬(c = 'f') ∧ ¬(c = '"') ∧ ¬(c = '[')
      ∧ ¬(c = '\x7b') ∧ ¬(c = '-') := by
  refine ⟨?_, ?_, ?_, ?_, ?_, ?_, ?_⟩ <;>
    (intro hEq; subst hEq; exact absurd hd (by decide))

theorem escapeChars_length (cs : List Char) :
    cs.length ≤ (escapeChars cs).length := by
  induction cs with
  | nil => simp [escapeChars]
  | cons c cs ih =>
    have h1 : 1 ≤ (escapeChar c).length := by
      unfold escapeChar
      split_ifs <;> simp
    simp only [escapeChars, List.length_append, List.length_cons]
    omega

theorem printJson_head (v : Json) :
    ∃ c cs', printJson v = c :: cs' ∧ ¬(c = ']') ∧ ¬(c = '\x7d') := by
  cases v with
  | null => exact ⟨'n', _, rfl, by decide, by decide⟩
  | bool b =>
    cases b with
    | false => exact ⟨'f', _, rfl, by decide, by decide⟩
    | true => exact ⟨'t', _, rfl, by decide, by decide⟩
  | num i =>
    cases i with
    | ofNat n =>
      obtain ⟨d, ds, hds, hd⟩ := natToChars_head_digit n
      refine ⟨d, ds, ?_, ?_, ?_⟩
      · rw [show printJson (Json.num (Int.ofNat n)) = natToChars n from rfl,
          hds]
      · intro hEq; subst hEq; exact absurd hd (by decide)
      · intro hEq; subst hEq; exact absurd hd (by decide)
    | negSucc m => exact ⟨'-', _, rfl, by decide, by decide⟩
  | str s => exact ⟨'"', _, rfl, by decide, by decide⟩
  | arr l => exact ⟨'[', _, rfl, by decide, by decide⟩
  | obj ms => exact ⟨'\x7b', _, rfl, by decide, by decide⟩

/-! ### The parse budget is bounded by the printed length -/

mutual

theorem jsonFuel_le_length : ∀ v : Json, jsonFuel v ≤ (printJson v).length
  | .null => by simp [jsonFuel, printJson, nullChars]
  | .bool b => by
    cases b <;> simp [jsonFuel, printJson, trueChars, falseChars]
  | .num i => by
    cases i with
    | ofNat n =>
      obtain ⟨d, ds, hds, _⟩ := natToChars_head_digit n
      rw [show printJson (Json.num (Int.ofNat n)) = natToChars n from rfl,
        hds]
      simp [jsonFuel]
    | negSucc m => simp [jsonFuel, printJson, intToChars]
  | .str s => by simp [jsonFuel, printJson]
  | .arr l => by
    have h := elemsFuel_le_length l
    simp only [jsonFuel, printJson, List.length_cons, List.length_append,
      List.length_nil]
    omega
  | .obj ms => by
    have h := membersFuel_le_length ms
    simp only [jsonFuel, printJson, List.length_cons, List.length_append,
      List.length_nil]
    omega

theorem elemsFuel_le_length : ∀ l : JsonList,
    elemsFuel l ≤ (printElems l).length + 1
  | .nil => by simp [elemsFuel, printElems]
  | .cons x .nil => by
    have h := jsonFuel_le_length x
    simp only [elemsFuel, printElems]
    omega
  | .cons x (.cons y ys) => by
    have h1 := jsonFuel_le_length x
    have h2 := elemsFuel_le_length (JsonList.cons y ys)
    simp only [elemsFuel] at h2
    simp only [elemsFuel, printElems, List.length_append, List.length_cons]
    omega

theorem membersFuel_le_length : ∀ ms : JsonMembers,
    membersFuel ms ≤ (printMembers ms).length + 1
  | .nil => by simp [membersFuel, printMembers]
  | .cons k v .nil => by
    have h := jsonFuel_le_length v
    simp only [membersFuel, printMembers, List.length_append,
      List.length_cons]
    omega
  | .cons k v (.cons k2 v2 ms) => by
    have h1 := jsonFuel_le_length v
    have h2 := membersFuel_le_length (JsonMembers.cons k2 v2 ms)
    simp only [membersFuel] at h2
    simp only [membersFuel, printMembers, List.length_append,
      List.length_cons]
    omega

end

/-! ### Round trip of the JSON printer through the JSON parser -/

mutual

theorem parseValue_printJson : ∀ v : Json, ∀ fuelV rest,
    jsonFuel v ≤ fuelV → headNotDigit rest = true →
    parseValue fuelV (printJson v ++ rest) = some (v, rest)
  | .null => by
    intro fuelV rest hf _hr
    cases fuelV with
    | zero => exact absurd hf (by decide)
    | succ f => rfl
  | .bool b => by
    intro fuelV rest hf _hr
    cases fuelV with
    | zero => cases b <;> exact absurd hf (by decide)
    | succ f => cases b <;> rfl
  | .num i => by
    intro fuelV rest hf hr
    cases fuelV with
    | zero => exact absurd hf (by simp [jsonFuel])
    | succ f =>
      have hnum : parseNumber (intToChars i ++ rest) = some (i, rest) :=
        parseNumber_intToChars i rest hr
      cases i with
      | ofNat n =>
        obtain ⟨d, ds, hds, hd⟩ := natToChars_head_digit n
        obtain ⟨hn, ht, hf2, hq, hb, hbr, _⟩ := isDigitChar_ne d hd
        have hpr : intToChars (Int.ofNat n) ++ rest = d :: (ds ++ rest) := by
          rw [show intToChars (Int.ofNat n) = natToChars n from rfl, hds]
          rfl
        show parseValue (f + 1) (intToChars (Int.ofNat n) ++ rest)
          = some (.num (Int.ofNat n), rest)
        rw [hpr] at hnum ⊢
        simp [parseValue, hn, ht, hf2, hq, hb, hbr, hnum]
      | negSucc m =>
        have hpr : intToChars (Int.negSucc m) ++ rest
            = '-' :: (natToChars (m + 1) ++ rest) := rfl
        show parseValue (f + 1) (intToChars (Int.negSucc m) ++ rest)
          = some (.num (Int.negSucc m), rest)
        rw [hpr] at hnum ⊢
        simp [parseValue, hnum]
  | .str s => by
    intro fuelV rest hf _hr
    cases fuelV with
    | zero => exact absurd hf (by simp [jsonFuel])
    | succ f =>
      show parseValue (f + 1)
          (('"' :: (escapeChars s.data ++ ['"'])) ++ rest)
        = some (.str s, rest)
      have hassoc : (escapeChars s.data ++ ['"']) ++ rest
          = escapeChars s.data ++ '"' :: rest := by
        rw [List.append_assoc]; rfl
      have step : parseValue (f + 1)
            ('"' :: ((escapeChars s.data ++ ['"']) ++ rest))
          = (match parseStrChars
                (((escapeChars s.data ++ ['"']) ++ rest).length + 1)
                ((escapeChars s.data ++ ['"']) ++ rest) with
             | some (cs, r) => some (.str (String.mk cs), r)
             | none => none) := rfl
      rw [List.cons_append, step, hassoc]
      have hlen : s.data.length
          < (escapeChars s.data ++ '"' :: rest).length + 1 := by
        have := escapeChars_length s.data
        simp only [List.length_append, List.length_cons]
        omega
      rw [parseStrChars_escapeChars s.data _ rest hlen]
  | .arr l => by
    intro fuelV rest hf _hr
    cases fuelV with
    | zero => simp only [jsonFuel] at hf; omega
    | succ f =>
      cases l with
      | nil => rfl
      | cons x xs =>
        obtain ⟨c, cs', hpr, hc1, _hc2⟩ := printJson_head x
        have hfe : elemsFuel (JsonList.cons x xs) ≤ f := by
          simp only [jsonFuel] at hf; omega
        have hre : parseElems f
              (printElems (JsonList.cons x xs) ++ ']' :: rest)
            = some (JsonList.cons x xs, rest) :=
          parseElems_printElems (JsonList.cons x xs) f rest
            (by simp) hfe
        have hex : ∃ t, printElems (JsonList.cons x xs) ++ ']' :: rest
            = c :: t := by
          cases xs with
          | nil => exact ⟨cs' ++ ']' :: rest, by simp [printElems, hpr]⟩
          | cons y ys =>
            exact ⟨(cs' ++ ',' :: printElems (JsonList.cons y ys))
              ++ ']' :: rest, by simp [printElems, hpr]⟩
        obtain ⟨t, ht⟩ := hex
        show parseValue (f + 1)
            (('[' :: (printElems (JsonList.cons x xs) ++ [']'])) ++ rest)
          = some (.arr (JsonList.cons x xs), rest)
        have hassoc : (printElems (JsonList.cons x xs) ++ [']']) ++ rest
            = printElems (JsonList.cons x xs) ++ ']' :: rest := by
          rw [List.append_assoc]; rfl
        rw [List.cons_append, hassoc, ht]
        have step : parseValue (f + 1) ('[' :: (c :: t))
            = (match parseElems f (c :: t) with
               | some (l2, r2) => some (.arr l2, r2)
               | none => none) := by
          simp [parseValue, hc1]
        rw [step, ← ht, hre]
  | .obj ms => by
    intro fuelV rest hf _hr
    cases fuelV with
    | zero => simp only [jsonFuel] at hf; omega
    | succ f =>
      cases ms with
      | nil => rfl
      | cons k v tail =>
        have hfm : membersFuel (JsonMembers.cons k v tail) ≤ f := by
          simp only [jsonFuel] at hf; omega
        have hrm : parseMembers f
              (printMembers (JsonMembers.cons k v tail) ++ '\x7d' :: rest)
            = some (JsonMembers.cons k v tail, rest) :=
          parseMembers_printMembers (JsonMembers.cons k v tail) f rest
            (by simp) hfm
        have hex : ∃ t, printMembers (JsonMembers.cons k v tail)
            ++ '\x7d' :: rest = '"' :: t := by
          cases tail with
          | nil =>
            exact ⟨(escapeChars k.data ++ '"' :: ':' :: printJson v)
              ++ '\x7d' :: rest, rfl⟩
          | cons k2 v2 tail2 =>
            exact ⟨((escapeChars k.data ++ '"' :: ':' :: printJson v)
              ++ ',' :: printMembers (JsonMembers.cons k2 v2 tail2))
              ++ '\x7d' :: rest, rfl⟩
        obtain ⟨t, ht⟩ := hex
        show parseValue (f + 1)
            (('\x7b' :: (printMembers (JsonMembers.cons k v tail)
              ++ ['\x7d'])) ++ rest)
          = some (.obj (JsonMembers.cons k v tail), rest)
        have hassoc : (printMembers (JsonMembers.cons k v tail)
              ++ ['\x7d']) ++ rest
            = printMembers (JsonMembers.cons k v tail) ++ '\x7d' :: rest := by
          rw [List.append_assoc]; rfl
        rw [List.cons_append, hassoc, ht]
        have step : parseValue (f + 1) ('\x7b' :: ('"' :: t))
            = (match parseMembers f ('"' :: t) with
               | some (ms2, r2) => some (.obj ms2, r2)
               | none => none) := by
          simp [parseValue]
        rw [step, ← ht, hrm]

theorem parseElems_printElems : ∀ l : JsonList, ∀ fuelV rest,
    l ≠ .nil → elemsFuel l ≤ fuelV →
    parseElems fuelV (printElems l ++ ']' :: rest) = some (l, rest)
  | .nil => by intro _ _ hne _; exact absurd rfl hne
  | .cons x xs => by
    intro fuelV rest _ hf
    cases fuelV with
    | zero => simp only [elemsFuel] at hf; omega
    | succ f =>
      cases xs with
      | nil =>
        have hv : parseValue f (printJson x ++ ']' :: rest)
            = some (x, ']' :: rest) :=
          parseValue_printJson x f (']' :: rest)
            (by simp only [elemsFuel] at hf; omega) rfl
        show parseElems (f + 1) (printJson x ++ ']' :: rest)
          = some (JsonList.cons x .nil, rest)
        simp [parseElems, hv]
      | cons y ys =>
        have hv : parseValue f (printJson x
              ++ ',' :: (printElems (JsonList.cons y ys) ++ ']' :: rest))
            = some (x, ',' :: (printElems (JsonList.cons y ys)
              ++ ']' :: rest)) :=
          parseValue_printJson x f _
            (by simp only [elemsFuel] at hf; omega) rfl
        have he : parseElems f
              (printElems (JsonList.cons y ys) ++ ']' :: rest)
            = some (JsonList.cons y ys, rest) :=
          parseElems_printElems (JsonList.cons y ys) f rest (by simp)
            (by simp only [elemsFuel] at hf ⊢; omega)
        show parseElems (f + 1)
            ((printJson x ++ ',' :: printElems (JsonList.cons y ys))
              ++ ']' :: rest)
          = some (JsonList.cons x (JsonList.cons y ys), rest)
        have hassoc : (printJson x ++ ',' :: printElems (JsonList.cons y ys))
              ++ ']' :: rest
            = printJson x ++ ',' :: (printElems (JsonList.cons y ys)
              ++ ']' :: rest) := by
          simp
        rw [hassoc]
        simp [parseElems, hv, he]

theorem parseMembers_printMembers : ∀ ms : JsonMembers, ∀ fuelV rest,
    ms ≠ .nil → membersFuel ms ≤ fuelV →
    parseMembers fuelV (printMembers ms ++ '\x7d' :: rest) = some (ms, rest)
  | .nil => by intro _ _ hne _; exact absurd rfl hne
  | .cons k v tail => by
    intro fuelV rest _ hf
    cases fuelV with
    | zero => simp only [membersFuel] at hf; omega
    | succ f =>
      have hk : String.mk k.data = k := rfl
      cases tail with
      | nil =>
        show parseMembers (f + 1)
            (('"' :: (escapeChars k.data ++ '"' :: ':' :: printJson v))
              ++ '\x7d' :: rest)
          = some (JsonMembers.cons k v .nil, rest)
        have hassoc : (escapeChars k.data ++ '"' :: ':' :: printJson v)
              ++ '\x7d' :: rest
            = escapeChars k.data
              ++ '"' :: ':' :: (printJson v ++ '\x7d' :: rest) := by
          simp
        rw [List.cons_append, hassoc]
        have hs : parseStrChars
              ((escapeChars k.data
                ++ '"' :: ':' :: (printJson v ++ '\x7d' :: rest)).length + 1)
              (escapeChars k.data
                ++ '"' :: ':' :: (printJson v ++ '\x7d' :: rest))
            = some (k.data, ':' :: (printJson v ++ '\x7d' :: rest)) := by
          apply parseStrChars_escapeChars
          have := escapeChars_length k.data
          simp only [List.length_append, List.length_cons]
          omega
        have hv : parseValue f (printJson v ++ '\x7d' :: rest)
            = some (v, '\x7d' :: rest) :=
          parseValue_printJson v f _
            (by simp only [membersFuel] at hf; omega) rfl
        simp only [parseMembers]
        rw [hs]
        simp [hv, hk]
      | cons k2 v2 tail2 =>
        have hm : parseMembers f
              (printMembers (JsonMembers.cons k2 v2 tail2) ++ '\x7d' :: rest)
            = some (JsonMembers.cons k2 v2 tail2, rest) :=
          parseMembers_printMembers (JsonMembers.cons k2 v2 tail2) f rest
            (by simp) (by simp only [membersFuel] at hf ⊢; omega)
        show parseMembers (f + 1)
            ((('"' :: (escapeChars k.data ++ '"' :: ':' :: printJson v))
              ++ ',' :: printMembers (JsonMembers.cons k2 v2 tail2))
              ++ '\x7d' :: rest)
          = some (JsonMembers.cons k v (JsonMembers.cons k2 v2 tail2), rest)
        have hassoc : (('"' :: (escapeChars k.data
                ++ '"' :: ':' :: printJson v))
              ++ ',' :: printMembers (JsonMembers.cons k2 v2 tail2))
              ++ '\x7d' :: rest
            = '"' :: (escapeChars k.data ++ '"' :: ':' :: (printJson v
              ++ ',' :: (printMembers (JsonMembers.cons k2 v2 tail2)
                ++ '\x7d' :: rest))) := by
          simp
        rw [hassoc]
        have hs : parseStrChars
              ((escapeChars k.data ++ '"' :: ':' :: (printJson v
                ++ ',' :: (printMembers (JsonMembers.cons k2 v2 tail2)
                  ++ '\x7d' :: rest))).length + 1)
              (escapeChars k.data ++ '"' :: ':' :: (printJson v
                ++ ',' :: (printMembers (JsonMembers.cons k2 v2 tail2)
                  ++ '\x7d' :: rest)))
            = some (k.data, ':' :: (printJson v
                ++ ',' :: (printMembers (JsonMembers.cons k2 v2 tail2)
                  ++ '\x7d' :: rest))) := by
          apply parseStrChars_escapeChars
          have := escapeChars_length k.data
          simp only [List.length_append, List.length_cons]
          omega
        have hv : parseValue f (printJson v
              ++ ',' :: (printMembers (JsonMembers.cons k2 v2 tail2)
                ++ '\x7d' :: rest))
            = some (v, ',' :: (printMembers (JsonMembers.cons k2 v2 tail2)
                ++ '\x7d' :: rest)) :=
          parseValue_printJson v f _
            (by simp only [membersFuel] at hf; omega) rfl
        simp only [parseMembers]
        rw [hs]
        simp [hv, hm, hk]

end

/-! ### Round trip of the UTF-8 layer -/

theorem char_toNat_valid (c : Char) :
    c.toNat < 1114112 ∧ ¬(55296 ≤ c.toNat ∧ c.toNat < 57344) := by
  have he : c.toNat = c.val.toNat := rfl
  cases c.valid with
  | inl h =>
    have h1 : c.val.toNat < 55296 := UInt32.toNat_lt_of_lt (by decide) h
    exact ⟨by omega, by omega⟩
  | inr h =>
    obtain ⟨h1, h2⟩ := h
    have g1 : 57343 < c.val.toNat := UInt32.lt_toNat_of_lt (by decide) h1
    have g2 : c.val.toNat < 1114112 := UInt32.toNat_lt_of_lt (by decide) h2
    exact ⟨by omega, by omega⟩

theorem utf8Decode_one (f b : Nat) (bs : List Nat) (h : b < 128) :
    utf8Decode (f + 1) (b :: bs)
      = consChar (Char.ofNat b) (utf8Decode f bs) := by
  simp only [utf8Decode]
  rw [if_pos h]

theorem utf8Decode_two (f b0 b1 : Nat) (bs : List Nat)
    (h0 : 192 ≤ b0) (h0b : b0 < 224) (h1 : 128 ≤ b1) (h1b : b1 < 192)
    (hov : 128 ≤ (b0 - 192) * 64 + (b1 - 128)) :
    utf8Decode (f + 1) (b0 :: b1 :: bs)
      = consChar (Char.ofNat ((b0 - 192) * 64 + (b1 - 128)))
          (utf8Decode f bs) := by
  simp only [utf8Decode]
  rw [if_neg (by omega), if_neg (by omega), if_pos (by omega)]
  simp only [utf8Scalar2]
  rw [if_pos (show 128 ≤ b1 ∧ b1 < 192 from ⟨h1, h1b⟩), if_neg (by omega)]

theorem utf8Decode_three (f b0 b1 b2 : Nat) (bs : List Nat)
    (h0 : 224 ≤ b0) (h0b : b0 < 240) (h1 : 128 ≤ b1) (h1b : b1 < 192)
    (h2 : 128 ≤ b2) (h2b : b2 < 192)
    (hov : 2048 ≤ (b0 - 224) * 4096 + (b1 - 128) * 64 + (b2 - 128))
    (hsur : ¬(55296 ≤ (b0 - 224) * 4096 + (b1 - 128) * 64 + (b2 - 128)
      ∧ (b0 - 224) * 4096 + (b1 - 128) * 64 + (b2 - 128) < 57344)) :
    utf8Decode (f + 1) (b0 :: b1 :: b2 :: bs)
      = consChar (Char.ofNat
            ((b0 - 224) * 4096 + (b1 - 128) * 64 + (b2 - 128)))
          (utf8Decode f bs) := by
  simp only [utf8Decode]
  rw [if_neg (by omega), if_neg (by omega), if_neg (by omega),
    if_pos (by omega)]
  simp only [utf8Scalar3]
  rw [if_pos (show (128 ≤ b1 ∧ b1 < 192) ∧ (128 ≤ b2 ∧ b2 < 192) from
      ⟨⟨h1, h1b⟩, ⟨h2, h2b⟩⟩),
    if_neg (by omega), if_neg hsur]

theorem utf8Decode_four (f b0 b1 b2 b3 : Nat) (bs : List Nat)
    (h0 : 240 ≤ b0) (h0b : b0 < 248) (h1 : 128 ≤ b1) (h1b : b1 < 192)
    (h2 : 128 ≤ b2) (h2b : b2 < 192) (h3 : 128 ≤ b3) (h3b : b3 < 192)
    (hov : 65536 ≤ (b0 - 240) * 262144 + (b1 - 128) * 4096
      + (b2 - 128) * 64 + (b3 - 128))
    (hmax : ¬(1114112 ≤ (b0 - 240) * 262144 + (b1 - 128) * 4096
      + (b2 - 128) * 64 + (b3 - 128))) :
    utf8Decode (f + 1) (b0 :: b1 :: b2 :: b3 :: bs)
      = consChar (Char.ofNat
            ((b0 - 240) * 262144 + (b1 - 128) * 4096 + (b2 - 128) * 64
              + (b3 - 128)))
          (utf8Decode f bs) := by
  simp only [utf8Decode]
  rw [if_neg (by omega), if_neg (by omega), if_neg (by omega),
    if_neg (by omega), if_pos (by omega)]
  simp only [utf8Scalar4]
  rw [if_pos (show (128 ≤ b1 ∧ b1 < 192) ∧ (128 ≤ b2 ∧ b2 < 192)
        ∧ (128 ≤ b3 ∧ b3 < 192) from ⟨⟨h1, h1b⟩, ⟨h2, h2b⟩, ⟨h3, h3b⟩⟩),
    if_neg (by omega), if_neg hmax]

theorem utf8Decode_encodeChar (c : Char) (f : Nat) (bs : List Nat) :
    utf8Decode (f + 1) (utf8EncodeChar c ++ bs)
      = consChar c (utf8Decode f bs) := by
  obtain ⟨hlt, hsur⟩ := char_toNat_valid c
  by_cases h1 : c.toNat < 128
  · have hpr : utf8EncodeChar c ++ bs = c.toNat :: bs := by
      simp [utf8EncodeChar, h1]
    rw [hpr, utf8Decode_one _ _ _ h1, Char.ofNat_toNat]
  · by_cases h2 : c.toNat < 2048
    · have hpr : utf8EncodeChar c ++ bs
          = (192 + c.toNat / 64) :: (128 + c.toNat % 64) :: bs := by
        simp [utf8EncodeChar, h1, h2]
      have harith : (192 + c.toNat / 64 - 192) * 64
          + (128 + c.toNat % 64 - 128) = c.toNat := by omega
      rw [hpr, utf8Decode_two _ _ _ _ (by omega) (by omega) (by omega)
        (by omega) (by omega), harith, Char.ofNat_toNat]
    · by_cases h3 : c.toNat < 65536
      · have hpr : utf8EncodeChar c ++ bs
            = (224 + c.toNat / 4096) :: (128 + c.toNat / 64 % 64)
              :: (128 + c.toNat % 64) :: bs := by
          simp [utf8EncodeChar, h1, h2, h3]
        have harith : (224 + c.toNat / 4096 - 224) * 4096
            + (128 + c.toNat / 64 % 64 - 128) * 64
            + (128 + c.toNat % 64 - 128) = c.toNat := by omega
        rw [hpr, utf8Decode_three _ _ _ _ _ (by omega) (by omega) (by omega)
          (by omega) (by omega) (by omega) (by omega) (by omega), harith,
          Char.ofNat_toNat]
      · have hpr : utf8EncodeChar c ++ bs
            = (240 + c.toNat / 262144) :: (128 + c.toNat / 4096 % 64)
              :: (128 + c.toNat / 64 % 64) :: (128 + c.toNat % 64) :: bs := by
          simp [utf8EncodeChar, h1, h2, h3]
        have harith : (240 + c.toNat / 262144 - 240) * 262144
            + (128 + c.toNat / 4096 % 64 - 128) * 4096
            + (128 + c.toNat / 64 % 64 - 128) * 64
            + (128 + c.toNat % 64 - 128) = c.toNat := by omega
        rw [hpr, utf8Decode_four _ _ _ _ _ _ (by omega) (by omega)
          (by omega) (by omega) (by omega) (by omega) (by omega) (by omega)
          (by omega) (by omega), harith, Char.ofNat_toNat]

theorem utf8Decode_utf8Encode : ∀ cs : List Char, ∀ fuel,
    cs.length < fuel → utf8Decode fuel (utf8Encode cs) = some cs := by
  intro cs
  induction cs with
  | nil =>
    intro fuel h
    cases fuel with
    | zero => omega
    | succ f => rfl
  | cons c cs ih =>
    intro fuel h
    cases fuel with
    | zero => omega
    | succ f =>
      rw [show utf8Encode (c :: cs) = utf8EncodeChar c ++ utf8Encode cs
        from rfl, utf8Decode_encodeChar,
        ih f (by simp only [List.length_cons] at h; omega)]
      rfl

theorem utf8Encode_length (cs : List Char) :
    cs.length ≤ (utf8Encode cs).length := by
  induction cs with
  | nil => simp [utf8Encode]
  | cons c cs ih =>
    have h1 : 1 ≤ (utf8EncodeChar c).length := by
      simp only [utf8EncodeChar]
      split_ifs <;> simp
    rw [show utf8Encode (c :: cs) = utf8EncodeChar c ++ utf8Encode cs
      from rfl]
    simp only [List.length_append, List.length_cons]
    omega

/-- Claim C8: encoding an application message value in the wire format of
the framed channel pair — a 4-byte big-endian length header followed by
the UTF-8 bytes of its compact JSON serialization — and then decoding the
frame yields the original value and consumes exactly the frame, for
arbitrarily nested values and strings with multi-byte characters.  The
hypothesis is that encoding succeeded, i.e. the payload is within
`LengthDelimitedCodec`'s maximum frame length. -/
theorem c8_frame_roundtrip (v : Json) (bs extra : List Nat)
    (h : encodeFrame v = some bs) :
    decodeFrame (bs ++ extra) = some (v, extra) := by
  unfold encodeFrame at h
  by_cases hlen : (utf8Encode (printJson v)).length ≤ maxFrameLen
  · rw [if_pos hlen] at h
    injection h with h
    subst h
    simp only [maxFrameLen] at hlen
    have hchars : (printJson v).length ≤ (utf8Encode (printJson v)).length :=
      utf8Encode_length (printJson v)
    rw [List.append_assoc]
    simp only [lenBytes, List.cons_append, List.nil_append]
    simp only [decodeFrame]
    have hn : (((utf8Encode (printJson v)).length / 16777216 % 256 * 256
        + (utf8Encode (printJson v)).length / 65536 % 256) * 256
        + (utf8Encode (printJson v)).length / 256 % 256) * 256
        + (utf8Encode (printJson v)).length % 256
        = (utf8Encode (printJson v)).length := by omega
    rw [hn]
    rw [if_pos (by simp only [maxFrameLen]; omega)]
    rw [if_pos (by simp only [List.length_append]; omega)]
    rw [List.take_left, List.drop_left]
    rw [utf8Decode_utf8Encode (printJson v) _ (by omega)]
    have hp := parseValue_printJson v ((printJson v).length + 1) []
      (by have := jsonFuel_le_length v; omega) rfl
    rw [List.append_nil] at hp
    simp [hp]
  · rw [if_neg hlen] at h
    simp at h

/-- Witness for `c8_frame_roundtrip`: the concrete nested value `jsonW`
(an object with a multi-byte key, containing a negative number, an accented
string, `null` and `true`) round-trips through its encoded frame `frameW`
with two trailing bytes left over. -/
theorem c8_frame_roundtrip_witness :
    decodeFrame (frameW ++ [7, 9]) = some (jsonW, [7, 9]) :=
  c8_frame_roundtrip jsonW frameW [7, 9] rfl

end Scot
